import Mathlib

/-!
Shallow embedding of the training/checkpoint/early-stopping core of a
seq2seq training harness (files `solver.py` and `train.py`).

Validation losses are modelled as rationals; the initial best loss
the float infinity is modelled as `none : Option ℚ` (none = +infinity).
-/

/-- `val_loss < best_val_loss` with `best = none` meaning `+inf`
(the comparison in `Solver.train`, solver.py line 92). -/
def ltInf (v : ℚ) : Option ℚ → Bool
  | none => true
  | some b => decide (v < b)

/-- `val_loss <= best_val_loss` with `best = none` meaning `+inf`
(the comparison in the train.py epoch loop, line 153). -/
def leInf (v : ℚ) : Option ℚ → Bool
  | none => true
  | some b => decide (v ≤ b)

/-- Minimum of a possibly-infinite best and a new loss. -/
def optMin : Option ℚ → ℚ → ℚ
  | none, v => v
  | some b, v => min b v

/-- Checkpoint / early-stopping state of the train.py epoch loop:
`best_val_loss` (none = +inf) and the `patience` counter. -/
structure TState where
  best : Option ℚ
  patience : Nat
deriving DecidableEq

/-- Record of one executed epoch of the train.py loop. -/
structure TRec where
  loss : ℚ
  prevBest : Option ℚ
  saved : Bool
  best : Option ℚ
  patience : Nat
deriving DecidableEq

/-- One epoch of the checkpoint/patience policy in train.py (lines 152-162):
if `val_loss <= best_val_loss` then save the model and update the best;
otherwise increment patience and signal a break when it reaches the limit.
Returns the epoch record, the new state and the break flag. -/
def trainEpochStep (plimit : Nat) (s : TState) (v : ℚ) : TRec × TState × Bool :=
  if leInf v s.best then
    (⟨v, s.best, true, some v, s.patience⟩, ⟨some v, s.patience⟩, false)
  else
    let p := s.patience + 1
    (⟨v, s.best, false, s.best, p⟩, ⟨s.best, p⟩, decide (plimit ≤ p))

/-- Initial state of the train.py loop (lines 102-103):
`patience = 0`, `best_val_loss` set to the float infinity. -/
def initTState : TState := ⟨none, 0⟩

/-- The train.py epoch loop (lines 105-162) over a sequence of epoch
validation losses, stopping early when the patience limit is reached.
Returns the final state and the records of the executed epochs. -/
def trainRun (plimit : Nat) (s : TState) : List ℚ → TState × List TRec
  | [] => (s, [])
  | v :: vs =>
    let t := trainEpochStep plimit s v
    if t.2.2 then (t.2.1, [t.1])
    else
      let res := trainRun plimit t.2.1 vs
      (res.1, t.1 :: res.2)

/-- Record of one epoch of `Solver.train` (no patience counter exists there). -/
structure SRec where
  loss : ℚ
  prevBest : Option ℚ
  saved : Bool
  best : Option ℚ
deriving DecidableEq

/-- One epoch of the checkpoint policy in `Solver.train` (solver.py lines
92-95): save the model iff `val_loss < best_val_loss` (strict). -/
def solverStep (b : Option ℚ) (v : ℚ) : SRec :=
  if ltInf v b then ⟨v, b, true, some v⟩ else ⟨v, b, false, b⟩

/-- The epoch loop of `Solver.train` (solver.py lines 86-102): exactly
`n_epochs` iterations, epoch `i` observing validation loss `losses i`;
no patience counter and no break statement exist in the loop body. -/
def solverLoop (losses : Nat → ℚ) : Option ℚ → Nat → Nat → List SRec
  | _, _, 0 => []
  | b, i, Nat.succ k =>
    let r := solverStep b (losses i)
    r :: solverLoop losses r.best (i + 1) k

/-- `Solver.train` (solver.py lines 81-102): start from
`best_val_loss` set to the float infinity and run `n` epochs. -/
def solverTrain (losses : Nat → ℚ) (n : Nat) : List SRec :=
  solverLoop losses none 0 n

/-! ## Loss pipeline (solver.py `train_epoch` / `validate`, train.py criterion)

The model forward is external: it is abstracted as a function producing a
score tensor, a list of decoding steps, each step a list of per-example
logit rows. A batch carries the target tensor `trg` as a list of decoding
steps, each step a list of per-example token ids. The cross-entropy term
for one logit row and one target class is abstracted as `ce`. -/

/-- A padded batch as consumed by the solver loops: `trg` is indexed
step-major, matching the `[trg_len, batch_size]` layout. -/
structure SBatch (σ : Type) where
  src : σ
  trg : List (List Nat)

/-- `output[1:].view(-1, d)` and `trg[1:].view(-1)` followed by the
criterion call (solver.py lines 119-123 and 152-155): drop the first
decoding step of both the score tensor and the target, flatten, apply
the criterion. -/
def applyCriterion (crit : List (List ℚ) → List Nat → ℚ)
    (output : List (List (List ℚ))) (trg : List (List Nat)) : ℚ :=
  crit (output.drop 1).flatten (trg.drop 1).flatten

/-- The criterion `nn.CrossEntropyLoss` with `ignore_index=pad` and sum reduction
(train.py line 100): sum the per-position cross-entropy term over exactly
the positions whose target id differs from the padding id. -/
def criterionSum (ce : List ℚ → Nat → ℚ) (pad : Nat)
    (outputs : List (List ℚ)) (targets : List Nat) : ℚ :=
  (((outputs.zip targets).filter (fun p => p.2 ≠ pad)).map
    (fun p => ce p.1 p.2)).sum

/-- Per-batch loss of the solver loops: run the model forward on the
batch, slice off the first decoding step of scores and targets, apply
the shared criterion. -/
def slicedBatchLoss {P σ : Type} (f : P → SBatch σ → List (List (List ℚ)))
    (crit : List (List ℚ) → List Nat → ℚ) (p : P) (b : SBatch σ) : ℚ :=
  applyCriterion crit (f p b) b.trg

/-- The batch loop of `Solver.validate` (solver.py lines 142-156): thread
the model parameters and the loss accumulator through the batches; the
body only accumulates the loss, it never updates the parameters. -/
def validateLoop {P σ : Type} (f : P → SBatch σ → List (List (List ℚ)))
    (crit : List (List ℚ) → List Nat → ℚ) :
    P × ℚ → List (SBatch σ) → P × ℚ
  | s, [] => s
  | (p, acc), b :: bs =>
    validateLoop f crit (p, acc + slicedBatchLoss f crit p b) bs

/-- `Solver.validate` (solver.py lines 139-157): accumulate the per-batch
loss over the held-out iterator and divide by the number of batches. -/
def validate {P σ : Type} (f : P → SBatch σ → List (List (List ℚ)))
    (crit : List (List ℚ) → List Nat → ℚ) (p : P) (bs : List (SBatch σ)) :
    P × ℚ :=
  ((validateLoop f crit (p, 0) bs).1, (validateLoop f crit (p, 0) bs).2 / bs.length)

/-- The batch loop of `Solver.train_epoch` (solver.py lines 110-127): in
each step the loss is computed from the current parameters, then the
optimizer update `upd` (zero_grad / backward / clip / step) produces the
next parameters. -/
def trainEpochLoop {P σ : Type} (f : P → SBatch σ → List (List (List ℚ)))
    (crit : List (List ℚ) → List Nat → ℚ) (upd : P → SBatch σ → P) :
    P × ℚ → List (SBatch σ) → P × ℚ
  | s, [] => s
  | (p, acc), b :: bs =>
    trainEpochLoop f crit upd (upd p b, acc + slicedBatchLoss f crit p b) bs

/-- `Solver.train_epoch` (solver.py lines 105-137): run the batch loop and
return the updated parameters with the epoch loss averaged over batches. -/
def train_epoch {P σ : Type} (f : P → SBatch σ → List (List (List ℚ)))
    (crit : List (List ℚ) → List Nat → ℚ) (upd : P → SBatch σ → P)
    (p : P) (bs : List (SBatch σ)) : P × ℚ :=
  ((trainEpochLoop f crit upd (p, 0) bs).1,
    (trainEpochLoop f crit upd (p, 0) bs).2 / bs.length)

/-- The four side-effecting operations of one training step, in the order
they appear in the source (solver.py lines 122-126, train.py lines
116-119). -/
inductive StepEv where
  | zeroGrad
  | backward
  | clipGrad
  | optimStep
deriving DecidableEq

/-- The straight-line order of the training-step operations:
`optimizer.zero_grad()`, `loss.backward()`, `clip_grad_norm_`,
`optimizer.step()`. -/
def trainStepEvents : List StepEv :=
  [StepEv.zeroGrad, StepEv.backward, StepEv.clipGrad, StepEv.optimStep]

/-! ## Checkpoint-store writes (C8) -/

/-- Writes to the checkpoint store: the vocabulary-and-dimensionality
metadata bundle (`model_dict.pkl`, solver.py line 79) and the parameter
file (`model.pth`, solver.py line 95). -/
inductive CkpEv where
  | metadata
  | params
deriving DecidableEq

/-- The sequence of checkpoint-store writes of a full solver run:
`init_training` writes the metadata bundle once (solver.py line 79),
then `train` writes the parameter file in exactly the epochs whose
validation loss improved on the best so far (solver.py line 95). -/
def solverRunEvents (losses : Nat → ℚ) (n : Nat) : List CkpEv :=
  CkpEv.metadata ::
    (solverTrain losses n).filterMap
      (fun r => if r.saved then some CkpEv.params else none)

/-! ## Inference driver (`Solver.translate`, solver.py lines 159-198) -/

/-- The batch loop of `Solver.translate` (solver.py lines 178-182): the
body extends the output list with the decoded sequences of the batch and
then unconditionally executes `break`, so only the first yielded batch is
ever decoded. `mt` abstracts `self.model.translate`, mapping a batch of
source examples to one decoded id sequence per example. -/
def collectOutputs {σ : Type} (mt : List σ → List (List Nat)) :
    List (List σ) → List (List Nat)
  | [] => []
  | b :: _ => mt b

/-- The same loop without the stray `break`: decode every yielded batch in
order. Modelled from the spec: "Iterate a test batch source exactly once
... processing only the first yielded batch is a documented quirk"; the
spec assumes the corrected behavior of iterating all batches. -/
def collectOutputsAll {σ : Type} (mt : List σ → List (List Nat))
    (bs : List (List σ)) : List (List Nat) :=
  (bs.map mt).flatten

/-- Post-processing of `Solver.translate` (solver.py lines 184-197): map
each id through the reverse vocabulary mapping `itos`, join the
tokens with single spaces, and emit one newline-terminated line per
decoded sequence. -/
def detokLines (itos : Nat → String) (seqs : List (List Nat)) :
    List String :=
  seqs.map (fun s => String.intercalate " " (s.map itos) ++ "\n")

/-- The lines written to the output sink by `Solver.translate` as coded:
decode with the truncating batch loop, then detokenize. -/
def translateLines {σ : Type} (mt : List σ → List (List Nat))
    (itos : Nat → String) (bs : List (List σ)) : List String :=
  detokLines itos (collectOutputs mt bs)

/-- The lines the output sink would hold with the corrected loop that
iterates all batches. -/
def translateLinesAll {σ : Type} (mt : List σ → List (List Nat))
    (itos : Nat → String) (bs : List (List σ)) : List String :=
  detokLines itos (collectOutputsAll mt bs)

/-! ## Checkpoint decision policies in isolation (C4) and best-loss traces (C9) -/

/-- The checkpoint decision of `Solver.train` (solver.py lines 92-95)
iterated over a loss sequence: save iff `val_loss < best_val_loss`, and
update the best exactly when saving. -/
def ltSaves : Option ℚ → List ℚ → List Bool
  | _, [] => []
  | b, v :: vs =>
    if ltInf v b then true :: ltSaves (some v) vs else false :: ltSaves b vs

/-- The checkpoint decision of the train.py epoch loop (lines 153-156)
iterated over a loss sequence: save iff `val_loss <= best_val_loss`, and
update the best exactly when saving. -/
def leSaves : Option ℚ → List ℚ → List Bool
  | _, [] => []
  | b, v :: vs =>
    if leInf v b then true :: leSaves (some v) vs else false :: leSaves b vs

/-- A loss sequence is tie-free when no epoch loss equals the best loss
recorded so far (starting from +infinity). -/
def tieFree : Option ℚ → List ℚ → Bool
  | _, [] => true
  | b, v :: vs =>
    (match b with
      | none => true
      | some x => decide (v ≠ x)) && tieFree (some (optMin b v)) vs

/-- Order on best-loss records, `none` playing the role of +infinity. -/
def optLE : Option ℚ → Option ℚ → Prop
  | _, none => True
  | none, some _ => False
  | some x, some y => x ≤ y

/-- Running minimum of a loss list folded onto an initial best record. -/
def runMin (b : Option ℚ) (l : List ℚ) : Option ℚ :=
  l.foldl (fun a v => some (optMin a v)) b

/-- A (loss, best-after) trace is linked when each best record is the
minimum of the preceding best record and the epoch loss. -/
def linked : Option ℚ → List (ℚ × Option ℚ) → Prop
  | _, [] => True
  | b, (v, m) :: rest => m = some (optMin b v) ∧ linked m rest

/-- The (validation loss, best-after-epoch) trace of a `Solver.train` run. -/
def sTrace (recs : List SRec) : List (ℚ × Option ℚ) :=
  recs.map fun r => (r.loss, r.best)

/-- The (validation loss, best-after-epoch) trace of a train.py run. -/
def tTrace (recs : List TRec) : List (ℚ × Option ℚ) :=
  recs.map fun r => (r.loss, r.best)







/-! ## Step-level lemmas -/

theorem solverStep_loss (b : Option ℚ) (v : ℚ) : (solverStep b v).loss = v := by
  unfold solverStep; split <;> rfl

theorem solverStep_prevBest (b : Option ℚ) (v : ℚ) :
    (solverStep b v).prevBest = b := by
  unfold solverStep; split <;> rfl

theorem solverStep_saved (b : Option ℚ) (v : ℚ) :
    (solverStep b v).saved = ltInf v b := by
  unfold solverStep; split <;> simp_all

theorem solverStep_best (b : Option ℚ) (v : ℚ) :
    (solverStep b v).best = some (optMin b v) := by
  cases b with
  | none => simp [solverStep, ltInf, optMin]
  | some x =>
    simp only [solverStep, ltInf, optMin]
    split
    · next h =>
      have hv : v < x := of_decide_eq_true h
      simp [min_eq_right hv.le]
    · next h =>
      have hv : ¬ v < x := by simpa using h
      simp [min_eq_left (le_of_not_lt hv)]

theorem trainEpochStep_loss (plimit : Nat) (s : TState) (v : ℚ) :
    (trainEpochStep plimit s v).1.loss = v := by
  unfold trainEpochStep; split <;> rfl

theorem trainEpochStep_prevBest (plimit : Nat) (s : TState) (v : ℚ) :
    (trainEpochStep plimit s v).1.prevBest = s.best := by
  unfold trainEpochStep; split <;> rfl

theorem trainEpochStep_saved (plimit : Nat) (s : TState) (v : ℚ) :
    (trainEpochStep plimit s v).1.saved = leInf v s.best := by
  unfold trainEpochStep; split <;> simp_all

theorem trainEpochStep_best (plimit : Nat) (s : TState) (v : ℚ) :
    (trainEpochStep plimit s v).1.best = some (optMin s.best v) := by
  cases hb : s.best with
  | none => simp [trainEpochStep, leInf, optMin, hb]
  | some x =>
    simp only [trainEpochStep, leInf, optMin, hb]
    split
    · next h =>
      have hv : v ≤ x := of_decide_eq_true h
      simp [min_eq_right hv]
    · next h =>
      have hv : ¬ v ≤ x := by simpa using h
      simp [min_eq_left (le_of_not_le hv)]

theorem trainEpochStep_state_best (plimit : Nat) (s : TState) (v : ℚ) :
    (trainEpochStep plimit s v).2.1.best = (trainEpochStep plimit s v).1.best := by
  unfold trainEpochStep; split <;> rfl

/-! ## Linked-trace lemmas -/

theorem linked_solverLoop (losses : Nat → ℚ) :
    ∀ (k i : Nat) (b : Option ℚ),
      linked b ((solverLoop losses b i k).map fun r => (r.loss, r.best)) := by
  intro k
  induction k with
  | zero => intro i b; simp [solverLoop, linked]
  | succ k ih =>
    intro i b
    simp only [solverLoop, List.map_cons]
    refine ⟨?_, ?_⟩
    · rw [solverStep_loss, solverStep_best]
    · exact ih (i + 1) (solverStep b (losses i)).best

theorem linked_trainRun (plimit : Nat) :
    ∀ (vs : List ℚ) (s : TState),
      linked s.best (((trainRun plimit s vs).2).map fun r => (r.loss, r.best)) := by
  intro vs
  induction vs with
  | nil => intro s; simp [trainRun, linked]
  | cons v vs ih =>
    intro s
    simp only [trainRun]
    split
    · simp only [List.map_cons, List.map_nil]
      exact ⟨by rw [trainEpochStep_loss, trainEpochStep_best], trivial⟩
    · simp only [List.map_cons]
      refine ⟨by rw [trainEpochStep_loss, trainEpochStep_best], ?_⟩
      have h := ih (trainEpochStep plimit s v).2.1
      rw [trainEpochStep_state_best] at h
      exact h

theorem linked_get :
    ∀ (tr : List (ℚ × Option ℚ)) (b : Option ℚ), linked b tr →
      ∀ (i : Nat) (h : i < tr.length),
        (tr.get ⟨i, h⟩).2 = runMin b ((tr.map Prod.fst).take (i + 1)) := by
  intro tr
  induction tr with
  | nil => intro b _ i h; exact absurd h (by simp)
  | cons p rest ih =>
    intro b hl i h
    obtain ⟨v, m⟩ := p
    obtain ⟨hm, hrest⟩ := hl
    cases i with
    | zero => simpa [runMin] using hm
    | succ i =>
      have hi : i < rest.length := Nat.lt_of_succ_lt_succ (by simpa using h)
      have := ih m hrest i hi
      simp only [List.get_cons_succ, List.map_cons, List.take_succ_cons, runMin,
        List.foldl_cons] at this ⊢
      rw [← hm]
      exact this

theorem linked_chain :
    ∀ (tr : List (ℚ × Option ℚ)) (b : Option ℚ), linked b tr →
      List.Chain' (fun x y => optLE y.2 x.2) tr := by
  intro tr
  induction tr with
  | nil => intro b _; simp
  | cons p rest ih =>
    intro b hl
    obtain ⟨v, m⟩ := p
    obtain ⟨hm, hrest⟩ := hl
    cases rest with
    | nil => simp
    | cons q rest2 =>
      obtain ⟨v2, m2⟩ := q
      obtain ⟨hm2, hrest2⟩ := hrest
      rw [List.chain'_cons]
      refine ⟨?_, ih m ⟨hm2, hrest2⟩⟩
      subst hm
      subst hm2
      exact min_le_left _ _

/-! ## Validation / training-epoch loop lemmas -/

theorem validateLoop_spec {P σ : Type} (f : P → SBatch σ → List (List (List ℚ)))
    (crit : List (List ℚ) → List Nat → ℚ) :
    ∀ (bs : List (SBatch σ)) (p : P) (a : ℚ),
      validateLoop f crit (p, a) bs
        = (p, a + (bs.map (slicedBatchLoss f crit p)).sum) := by
  intro bs
  induction bs with
  | nil => intro p a; simp [validateLoop]
  | cons b bs ih =>
    intro p a
    simp [validateLoop, ih, List.map_cons, List.sum_cons, add_assoc]

theorem trainEpochLoop_id {P σ : Type} (f : P → SBatch σ → List (List (List ℚ)))
    (crit : List (List ℚ) → List Nat → ℚ) :
    ∀ (bs : List (SBatch σ)) (p : P) (a : ℚ),
      trainEpochLoop f crit (fun q _ => q) (p, a) bs = validateLoop f crit (p, a) bs := by
  intro bs
  induction bs with
  | nil => intro p a; rfl
  | cons b bs ih => intro p a; simp [trainEpochLoop, validateLoop, ih]

/-! ## Solver epoch-count and loss-sequence lemmas -/

theorem solverLoop_length (losses : Nat → ℚ) :
    ∀ (k i : Nat) (b : Option ℚ), (solverLoop losses b i k).length = k := by
  intro k
  induction k with
  | zero => intro i b; rfl
  | succ k ih => intro i b; simp [solverLoop, ih]

theorem solverLoop_losses (losses : Nat → ℚ) :
    ∀ (k i : Nat) (b : Option ℚ),
      (solverLoop losses b i k).map SRec.loss = (List.range' i k).map losses := by
  intro k
  induction k with
  | zero => intro i b; rfl
  | succ k ih =>
    intro i b
    simp only [solverLoop, List.range', List.map_cons]
    rw [solverStep_loss, ih]

theorem solverLoop_saves (losses : Nat → ℚ) :
    ∀ (k i : Nat) (b : Option ℚ),
      (solverLoop losses b i k).map SRec.saved
        = ltSaves b ((List.range' i k).map losses) := by
  intro k
  induction k with
  | zero => intro i b; rfl
  | succ k ih =>
    intro i b
    simp only [solverLoop, List.range', List.map_cons, ltSaves]
    cases hc : ltInf (losses i) b with
    | true =>
      have hb : (solverStep b (losses i)).best = some (losses i) := by
        simp [solverStep, hc]
      rw [solverStep_saved, hc, hb, ih]
      simp
    | false =>
      have hb : (solverStep b (losses i)).best = b := by
        simp [solverStep, hc]
      rw [solverStep_saved, hc, hb, ih]
      simp

theorem solverLoop_saved_eq (losses : Nat → ℚ) :
    ∀ (k i : Nat) (b : Option ℚ), ∀ r ∈ solverLoop losses b i k,
      r.saved = ltInf r.loss r.prevBest := by
  intro k
  induction k with
  | zero => intro i b r hr; simp [solverLoop] at hr
  | succ k ih =>
    intro i b r hr
    rcases List.mem_cons.mp hr with h | h
    · subst h
      rw [solverStep_saved, solverStep_loss, solverStep_prevBest]
    · exact ih (i + 1) (solverStep b (losses i)).best r h

/-! ## Tie-free equivalence of the two checkpoint decisions -/

theorem tieFree_saves :
    ∀ (ls : List ℚ) (b : Option ℚ), tieFree b ls = true →
      ltSaves b ls = leSaves b ls := by
  intro ls
  induction ls with
  | nil => intro b _; rfl
  | cons v vs ih =>
    intro b ht
    cases b with
    | none =>
      have ht' : tieFree (some v) vs = true := by
        simpa [tieFree, optMin] using ht
      simp [ltSaves, leSaves, ltInf, leInf, ih _ ht']
    | some x =>
      rw [show tieFree (some x) (v :: vs)
            = (decide (v ≠ x) && tieFree (some (min x v)) vs) from rfl] at ht
      obtain ⟨hne, ht'⟩ := Bool.and_eq_true_iff.mp ht
      have hne : v ≠ x := of_decide_eq_true hne
      by_cases hlt : v < x
      · have hmin : min x v = v := min_eq_right hlt.le
        rw [hmin] at ht'
        simp [ltSaves, leSaves, ltInf, leInf, hlt, hlt.le, ih _ ht']
      · have hxle : x ≤ v := le_of_not_lt hlt
        have hnle : ¬ v ≤ x := fun h => hne (le_antisymm h hxle)
        have hmin : min x v = x := min_eq_left hxle
        rw [hmin] at ht'
        simp [ltSaves, leSaves, ltInf, leInf, hlt, hnle, ih _ ht']

theorem ltInf_leInf_tie (v x : ℚ) :
    (ltInf v (some x) ≠ leInf v (some x)) ↔ v = x := by
  simp only [ltInf, leInf, ne_eq, decide_eq_decide]
  constructor
  · intro h
    by_contra hne
    exact h ⟨le_of_lt, fun hle => lt_of_le_of_ne hle hne⟩
  · rintro rfl h
    exact lt_irrefl v (h.mpr le_rfl)

/-! ## Checkpoint-store write lemmas -/

theorem filterMap_saves (l : List SRec) :
    ((l.filterMap fun r => if r.saved then some CkpEv.params else none).count
        CkpEv.params = (l.filter fun r => r.saved).length)
    ∧ ((l.filterMap fun r => if r.saved then some CkpEv.params else none).count
        CkpEv.metadata = 0) := by
  induction l with
  | nil => simp
  | cons r l ih =>
    cases hs : r.saved
    · simpa [List.filterMap_cons, List.filter_cons, hs] using ih
    · simp [List.filterMap_cons, List.filter_cons, hs, List.count_cons, ih.1, ih.2]

/-! ## Claim theorems -/

/-- C1, counterexample: in the train.py checkpoint/patience policy
(default patience limit 10), the epoch validation losses [5, 3, 4, 2] do
NOT produce the patience-counter sequence [0, 0, 1, 0] claimed: the code
never resets the counter on improvement, so the sequence is [0, 0, 1, 1]. -/
theorem trainRun_patience_counterexample_c1 :
    (trainRun 10 initTState [5, 3, 4, 2]).2.map TRec.patience ≠ [0, 0, 1, 0] := by
  decide

/-- C1 (amended): whenever an epoch validation loss improves on the best
recorded so far, the train.py loop persists the model and updates the
best-loss record, but leaves the patience counter unchanged (it is never
reset); over the run [5, 3, 4, 2] the model is persisted exactly at
epochs 1, 2 and 4 and the patience counter after each epoch is
[0, 0, 1, 1]. -/
theorem trainRun_checkpoint_patience_c1 :
    (∀ (plimit : Nat) (s : TState) (v : ℚ), leInf v s.best = true →
      trainEpochStep plimit s v
        = (⟨v, s.best, true, some v, s.patience⟩, ⟨some v, s.patience⟩, false))
    ∧ (trainRun 10 initTState [5, 3, 4, 2]).2.map TRec.saved
        = [true, true, false, true]
    ∧ (trainRun 10 initTState [5, 3, 4, 2]).2.map TRec.patience = [0, 0, 1, 1] := by
  refine ⟨?_, by decide, by decide⟩
  intro plimit s v h
  simp [trainEpochStep, h]

/-- C1 witness: the improvement branch applied at a concrete state. -/
theorem trainRun_checkpoint_patience_c1_witness :
    trainEpochStep 10 ⟨some 5, 3⟩ 4
      = (⟨4, some 5, true, some 4, 3⟩, ⟨some 4, 3⟩, false) :=
  trainRun_checkpoint_patience_c1.1 10 ⟨some 5, 3⟩ 4 (by decide)

/-- C2: evaluation of `Solver.translate` as coded at a test set of 3
examples split into batches [[0, 1], [2]]: because of the stray `break`
the output sink receives only the 2 lines of the first batch, while the
loop without the `break` yields all 3 lines in input order. -/
theorem translate_truncation_c2 :
    translateLines (fun b => b.map fun s => [s, s + 1]) (fun n => toString n)
        [[0, 1], [2]] = ["0 1\n", "1 2\n"]
    ∧ (([[0, 1], [2]] : List (List Nat)).map List.length).sum = 3
    ∧ translateLinesAll (fun b => b.map fun s => [s, s + 1]) (fun n => toString n)
        [[0, 1], [2]] = ["0 1\n", "1 2\n", "2 3\n"] :=
  ⟨rfl, by decide, rfl⟩

/-- C3: with patience limit 2 and validation losses starting [5, 6, 7],
the train.py loop executes exactly three epochs and the result does not
depend on any further losses: a fourth epoch is never executed; the
patience counter reaches the limit 2 at the end of the third epoch. -/
theorem trainRun_early_stop_c3 (rest : List ℚ) :
    trainRun 2 initTState ([5, 6, 7] ++ rest) = trainRun 2 initTState [5, 6, 7]
    ∧ (trainRun 2 initTState ([5, 6, 7] ++ rest)).2.length = 3
    ∧ (trainRun 2 initTState ([5, 6, 7] ++ rest)).1.patience = 2 := by
  have h : trainRun 2 initTState ([5, 6, 7] ++ rest) = trainRun 2 initTState [5, 6, 7] :=
    rfl
  exact ⟨h, by rw [h]; decide, by rw [h]; decide⟩

/-- C4: the two checkpoint decisions differ exactly on ties. Against a
finite best the strict comparison of `Solver.train` and the non-strict
comparison of train.py disagree iff the loss equals the best; against the
initial infinite best they agree; the per-epoch save flags of both loops
are these comparisons; the `Solver.train` run realises the strict policy
`ltSaves`; and on any loss sequence with no exact tie against the running
best, the two policies persist at the same set of epochs. -/
theorem checkpoint_tie_policies_c4 :
    (∀ v x : ℚ, (ltInf v (some x) ≠ leInf v (some x)) ↔ v = x)
    ∧ (∀ v : ℚ, ltInf v none = leInf v none)
    ∧ (∀ (b : Option ℚ) (v : ℚ) (plimit : Nat) (s : TState),
        (solverStep b v).saved = ltInf v b
          ∧ (trainEpochStep plimit s v).1.saved = leInf v s.best)
    ∧ (∀ (losses : Nat → ℚ) (n : Nat),
        (solverTrain losses n).map SRec.saved
          = ltSaves none ((List.range n).map losses))
    ∧ (∀ ls : List ℚ, tieFree none ls = true →
        ltSaves none ls = leSaves none ls) := by
  refine ⟨ltInf_leInf_tie, fun v => rfl, ?_, ?_, fun ls h => tieFree_saves ls none h⟩
  · intro b v plimit s
    exact ⟨solverStep_saved b v, trainEpochStep_saved plimit s v⟩
  · intro losses n
    rw [solverTrain, solverLoop_saves, List.range_eq_range']

/-- C4 witness: the tie-free sequence [5, 3, 4, 2] yields the same save
decisions under both policies. -/
theorem checkpoint_tie_policies_c4_witness :
    tieFree none [5, 3, 4, 2] = true
    ∧ ltSaves none [5, 3, 4, 2] = leSaves none [5, 3, 4, 2] :=
  ⟨by decide, checkpoint_tie_policies_c4.2.2.2.2 [5, 3, 4, 2] (by decide)⟩

/-- C5: the summed cross-entropy criterion with `ignore_index = pad`
skips every position whose target is the padding token, and a batch whose
target positions after the excluded first decoding step are all padding
yields a loss of exactly zero, whatever the model scores are. -/
theorem loss_ignores_padding_c5 (ce : List ℚ → Nat → ℚ) (pad : Nat)
    (row : List ℚ) (rows : List (List ℚ)) (toks : List Nat)
    (output : List (List (List ℚ))) (trg : List (List Nat)) :
    (criterionSum ce pad (row :: rows) (pad :: toks) = criterionSum ce pad rows toks)
    ∧ ((∀ t ∈ (trg.drop 1).flatten, t = pad) →
        applyCriterion (criterionSum ce pad) output trg = 0) := by
  constructor
  · simp [criterionSum, List.zip_cons_cons, List.filter_cons]
  · intro h
    simp only [applyCriterion, criterionSum]
    rw [List.filter_eq_nil_iff.mpr ?_]
    · simp
    · intro p hp
      have hmem := (List.of_mem_zip hp).2
      simp [h p.2 hmem]

/-- C5 witness: a batch whose targets after the first step are all the
padding id 0 has zero loss. -/
theorem loss_ignores_padding_c5_witness :
    (∀ t ∈ (([[3], [0, 0]] : List (List Nat)).drop 1).flatten, t = 0)
    ∧ applyCriterion (criterionSum (fun _ _ => (1 : ℚ)) 0)
        [[[2]], [[2]]] [[3], [0, 0]] = 0 :=
  ⟨by decide,
    (loss_ignores_padding_c5 (fun _ _ => (1 : ℚ)) 0 [] [] [] [[[2]], [[2]]]
      [[3], [0, 0]]).2 (by decide)⟩

/-- C6: `Solver.validate` returns the model parameters unchanged, and its
loss is the average over batches of exactly the per-batch loss used by
`Solver.train_epoch`; it coincides with the training epoch loss when the
gradient update is disabled. -/
theorem validate_no_update_c6 {P σ : Type} (f : P → SBatch σ → List (List (List ℚ)))
    (crit : List (List ℚ) → List Nat → ℚ) (p : P) (bs : List (SBatch σ)) :
    (validate f crit p bs).1 = p
    ∧ (validate f crit p bs).2
        = (bs.map (slicedBatchLoss f crit p)).sum / bs.length
    ∧ (validate f crit p bs).2 = (train_epoch f crit (fun q _ => q) p bs).2 := by
  have h := validateLoop_spec f crit bs p 0
  refine ⟨?_, ?_, ?_⟩
  · simp [validate, h]
  · simp [validate, h]
  · simp [validate, train_epoch, trainEpochLoop_id]

/-- C7: in one training step the gradients are cleared before
backpropagation, the gradient norm is clipped after backpropagation, and
the optimizer step comes last; moreover the loss scores exclude the first
decoding step of both the model output and the target, so the loss does
not depend on either first row. -/
theorem train_step_order_c7 :
    (trainStepEvents.indexOf StepEv.zeroGrad < trainStepEvents.indexOf StepEv.backward
      ∧ trainStepEvents.indexOf StepEv.backward
          < trainStepEvents.indexOf StepEv.clipGrad
      ∧ trainStepEvents.indexOf StepEv.clipGrad
          < trainStepEvents.indexOf StepEv.optimStep)
    ∧ ∀ (crit : List (List ℚ) → List Nat → ℚ) (o1 o2 : List (List ℚ))
        (os : List (List (List ℚ))) (t1 t2 : List Nat) (ts : List (List Nat)),
        applyCriterion crit (o1 :: os) (t1 :: ts)
          = applyCriterion crit (o2 :: os) (t2 :: ts) :=
  ⟨by decide, fun _ _ _ _ _ _ _ => rfl⟩

/-- C8: the train.py loop starts from best-loss = +infinity and patience
0; the first epoch of a solver run compares against an infinite best; the
solver run writes the metadata bundle exactly once, as its first
checkpoint-store write, before any epoch write; and the parameter file is
written exactly in the epochs whose validation loss improved strictly on
the best so far. -/
theorem checkpoint_writes_c8 (losses : Nat → ℚ) (n : Nat) :
    initTState.best = none
    ∧ initTState.patience = 0
    ∧ (∀ m : Nat, ((solverTrain losses (m + 1)).head?.map SRec.prevBest) = some none)
    ∧ (solverRunEvents losses n).head? = some CkpEv.metadata
    ∧ (solverRunEvents losses n).count CkpEv.metadata = 1
    ∧ (∀ r ∈ solverTrain losses n, r.saved = ltInf r.loss r.prevBest)
    ∧ (solverRunEvents losses n).count CkpEv.params
        = ((solverTrain losses n).filter fun r => r.saved).length := by
  refine ⟨rfl, rfl, ?_, rfl, ?_, ?_, ?_⟩
  · intro m
    simp [solverTrain, solverLoop, solverStep_prevBest]
  · simp [solverRunEvents, List.count_cons, (filterMap_saves _).2]
  · exact fun r hr => solverLoop_saved_eq losses n 0 none r hr
  · simp [solverRunEvents, List.count_cons, (filterMap_saves _).1]

/-- C8 witness: the single record of a one-epoch run with loss 5 was
saved according to the strict comparison against the infinite best. -/
theorem checkpoint_writes_c8_witness :
    ((⟨5, none, true, some 5⟩ : SRec) ∈ solverTrain (fun _ => (5 : ℚ)) 1)
    ∧ (⟨5, none, true, some 5⟩ : SRec).saved
        = ltInf (⟨5, none, true, some 5⟩ : SRec).loss
            (⟨5, none, true, some 5⟩ : SRec).prevBest :=
  ⟨by decide,
    (checkpoint_writes_c8 (fun _ => (5 : ℚ)) 1).2.2.2.2.2.1
      ⟨5, none, true, some 5⟩ (by decide)⟩

/-- C9: in both training loops the best-validation-loss record after the
i-th executed epoch equals the running minimum, started from +infinity,
of the validation losses observed so far, and the best-loss trace is
monotonically non-increasing. -/
theorem best_prefix_min_c9 (losses : Nat → ℚ) (n plimit : Nat) (ls : List ℚ) :
    (∀ (i : Nat) (h : i < (sTrace (solverTrain losses n)).length),
      ((sTrace (solverTrain losses n)).get ⟨i, h⟩).2
        = runMin none (((sTrace (solverTrain losses n)).map Prod.fst).take (i + 1)))
    ∧ List.Chain' (fun x y => optLE y.2 x.2) (sTrace (solverTrain losses n))
    ∧ (∀ (i : Nat) (h : i < (tTrace (trainRun plimit initTState ls).2).length),
      ((tTrace (trainRun plimit initTState ls).2).get ⟨i, h⟩).2
        = runMin none
            (((tTrace (trainRun plimit initTState ls).2).map Prod.fst).take (i + 1)))
    ∧ List.Chain' (fun x y => optLE y.2 x.2)
        (tTrace (trainRun plimit initTState ls).2) := by
  have h1 : linked none (sTrace (solverTrain losses n)) :=
    linked_solverLoop losses n 0 none
  have h2 : linked none (tTrace (trainRun plimit initTState ls).2) :=
    linked_trainRun plimit ls initTState
  exact ⟨fun i h => linked_get _ none h1 i h, linked_chain _ none h1,
    fun i h => linked_get _ none h2 i h, linked_chain _ none h2⟩

/-- C9 witness: the best record after the first epoch of concrete runs of
both loops is the minimum of the losses seen so far. -/
theorem best_prefix_min_c9_witness :
    ((sTrace (solverTrain (fun _ => (5 : ℚ)) 1)).get ⟨0, by decide⟩).2
        = runMin none (((sTrace (solverTrain (fun _ => (5 : ℚ)) 1)).map Prod.fst).take 1)
    ∧ ((tTrace (trainRun 2 initTState [4]).2).get ⟨0, by decide⟩).2
        = runMin none (((tTrace (trainRun 2 initTState [4]).2).map Prod.fst).take 1) :=
  ⟨(best_prefix_min_c9 (fun _ => (5 : ℚ)) 1 2 [4]).1 0 (by decide),
    (best_prefix_min_c9 (fun _ => (5 : ℚ)) 1 2 [4]).2.2.1 0 (by decide)⟩

/-- C10: `Solver.train` executes exactly `n` epochs for every sequence of
validation losses: it records one epoch per index 0..n-1 with the loss of
that epoch, and no early-stopping mechanism can shorten the run. -/
theorem solver_fixed_epochs_c10 (losses : Nat → ℚ) (n : Nat) :
    (solverTrain losses n).length = n
    ∧ (solverTrain losses n).map SRec.loss = (List.range n).map losses := by
  refine ⟨solverLoop_length losses n 0 none, ?_⟩
  rw [solverTrain, solverLoop_losses, List.range_eq_range']
